import Mathlib

/-!
Verification of the credential-extraction and request-dispatch core of the
Facebook Ads Manager browser plugin (src/src/core/api.js, src/src/core/auth.js,
src/src/utils/helpers.js).

The development shallowly embeds the JavaScript sources:
* a `Json` value type with executable `Json.stringify` / `Json.parse`
  modelling the host `JSON` object (numbers restricted to the integer
  numerals the plugin actually serialises; `parse` accepts the
  whitespace-free strict subset that `stringify` emits);
* the credential extractor `getAccessToken` with the two regular
  expressions of auth.js implemented as explicit scanning functions;
* the three dispatcher operations `graphAPIRequest`, `graphQLRequest` and
  `batchGraphAPIRequests`, each split into a pure request-building phase,
  a response-handling phase, and a runner that also returns the list of
  fetch calls performed (so "zero network calls" is a statement about the
  returned trace).
-/

/-- Decimal digit test, the character class `[0-9]`. -/
def isDigitChar (c : Char) : Bool := 48 ≤ c.toNat && c.toNat ≤ 57

/-- A JSON value as produced by `JSON.parse`.  Numbers carry integers: the
plugin only ever serialises identifiers, flags and counts, never fractional
floats, and floating point is outside the embedding. -/
inductive Json where
  | null
  | bool (b : Bool)
  | num (n : Int)
  | str (s : String)
  | arr (elements : List Json)
  | obj (members : List (String × Json))

/-- The decimal digit character for `d < 10` (total, clamping above). -/
def digitOf : Nat → Char
  | 0 => '0' | 1 => '1' | 2 => '2' | 3 => '3' | 4 => '4'
  | 5 => '5' | 6 => '6' | 7 => '7' | 8 => '8' | _ => '9'

/-- Numeric value of a decimal digit character. -/
def digitVal (c : Char) : Nat := c.toNat - 48

/-- Decimal digit characters of a natural number, most significant first. -/
def natDigs (n : Nat) : List Char :=
  if _h : n < 10 then [digitOf n] else natDigs (n / 10) ++ [digitOf (n % 10)]
termination_by n
decreasing_by exact Nat.div_lt_self (by omega) (by omega)

/-- Lowercase hexadecimal digit for `d < 16`, as `JSON.stringify` emits in
`\u00xx` escapes. -/
def hexOf : Nat → Char
  | 0 => '0' | 1 => '1' | 2 => '2' | 3 => '3' | 4 => '4'
  | 5 => '5' | 6 => '6' | 7 => '7' | 8 => '8' | 9 => '9'
  | 10 => 'a' | 11 => 'b' | 12 => 'c' | 13 => 'd' | 14 => 'e' | _ => 'f'

/-- Value of a hexadecimal digit character (`JSON.parse` accepts both cases). -/
def hexValOf (c : Char) : Option Nat :=
  if 48 ≤ c.toNat && c.toNat ≤ 57 then some (c.toNat - 48)
  else if 97 ≤ c.toNat && c.toNat ≤ 102 then some (c.toNat - 97 + 10)
  else if 65 ≤ c.toNat && c.toNat ≤ 70 then some (c.toNat - 65 + 10)
  else none

/-- JSON string escaping of one character, exactly the table `JSON.stringify`
uses: the two metacharacters, the five named control escapes, `\u00xx` for the
remaining control characters, and everything else verbatim. -/
def escapeJsonChar (c : Char) : List Char :=
  if c = '"' then ['\\', '"']
  else if c = '\\' then ['\\', '\\']
  else if c = Char.ofNat 8 then ['\\', 'b']
  else if c = '\t' then ['\\', 't']
  else if c = '\n' then ['\\', 'n']
  else if c = Char.ofNat 12 then ['\\', 'f']
  else if c = '\r' then ['\\', 'r']
  else if c.toNat < 32 then ['\\', 'u', '0', '0', hexOf (c.toNat / 16), hexOf (c.toNat % 16)]
  else [c]

/-- Characters of a JSON string literal, quotes included. -/
def Json.strLitChars (s : String) : List Char :=
  '"' :: (s.data.flatMap escapeJsonChar ++ ['"'])

/-- Characters of an integer numeral, as `JSON.stringify` prints it. -/
def Json.intChars (n : Int) : List Char :=
  if n < 0 then '-' :: natDigs n.natAbs else natDigs n.natAbs

mutual
/-- Characters of the `JSON.stringify` rendering of a value (no whitespace,
members in order, exactly the host serialiser's output shape). -/
def Json.strL : Json → List Char
  | .num n => Json.intChars n
  | .str s => Json.strLitChars s
  | .bool false => 'f' :: "alse".data
  | .bool true => 't' :: "rue".data
  | .null => 'n' :: "ull".data
  | .arr es => '[' :: (Json.elemsChars es ++ [']'])
  | .obj ms => '{' :: (Json.membersChars ms ++ ['}'])
termination_by structural j => j
/-- Characters of a comma-separated element list. -/
def Json.elemsChars : List Json → List Char
  | [] => []
  | e :: es => Json.strL e ++ Json.elemsSep es
termination_by structural es => es
/-- Characters of the `,`-prefixed continuation of an element list. -/
def Json.elemsSep : List Json → List Char
  | [] => []
  | e :: es => ',' :: (Json.strL e ++ Json.elemsSep es)
termination_by structural es => es
/-- Characters of a comma-separated member list. -/
def Json.membersChars : List (String × Json) → List Char
  | [] => []
  | (k, v) :: ms => Json.strLitChars k ++ ':' :: (Json.strL v ++ Json.membersSep ms)
termination_by structural ms => ms
/-- Characters of the `,`-prefixed continuation of a member list. -/
def Json.membersSep : List (String × Json) → List Char
  | [] => []
  | (k, v) :: ms => ',' :: (Json.strLitChars k ++ ':' :: (Json.strL v ++ Json.membersSep ms))
termination_by structural ms => ms
end

/-- The embedding of `JSON.stringify`. -/
def Json.stringify (v : Json) : String := ⟨Json.strL v⟩

/-- Accumulating decimal-number reader: consumes a maximal digit run. -/
def readDigits : List Char → Nat → Nat × List Char
  | c :: cs, acc =>
      if isDigitChar c then readDigits cs (acc * 10 + digitVal c) else (acc, c :: cs)
  | [], acc => (acc, [])

/-- Named single-character unescapes of JSON string syntax. -/
def unescapeJsonChar : Char → Option Char
  | '"' => some '"'
  | '\\' => some '\\'
  | '/' => some '/'
  | 'b' => some (Char.ofNat 8)
  | 'f' => some (Char.ofNat 12)
  | 'n' => some '\n'
  | 'r' => some '\r'
  | 't' => some '\t'
  | _ => none

/-- Parse the body of a JSON string literal (after the opening quote) up to its
closing quote, undoing escapes; raw control characters are rejected as in
`JSON.parse`. -/
def parseStrChars : List Char → Option (List Char × List Char)
  | [] => none
  | c :: rest =>
      if c = '"' then some ([], rest)
      else if c = '\\' then
        match rest with
        | 'u' :: h1 :: h2 :: h3 :: h4 :: r2 =>
            match hexValOf h1, hexValOf h2, hexValOf h3, hexValOf h4 with
            | some a, some b, some d, some e =>
                match parseStrChars r2 with
                | some (cs, r3) => some (Char.ofNat (((a * 16 + b) * 16 + d) * 16 + e) :: cs, r3)
                | none => none
            | _, _, _, _ => none
        | e :: r2 =>
            match unescapeJsonChar e with
            | some ch =>
                match parseStrChars r2 with
                | some (cs, r3) => some (ch :: cs, r3)
                | none => none
            | none => none
        | [] => none
      else if c.toNat < 32 then none
      else
        match parseStrChars rest with
        | some (cs, r3) => some (c :: cs, r3)
        | none => none

mutual
/-- Fuel-indexed recursive-descent JSON value parser over the strict
whitespace-free grammar `JSON.stringify` emits.  Fuel only ever forces
failure when exhausted; `Json.parse` supplies enough for any input. -/
def parseVal : Nat → List Char → Option (Json × List Char)
  | 0, _ => none
  | fuel + 1, cs =>
      match cs with
      | 'n' :: 'u' :: 'l' :: 'l' :: r => some (.null, r)
      | 't' :: 'r' :: 'u' :: 'e' :: r => some (.bool true, r)
      | 'f' :: 'a' :: 'l' :: 's' :: 'e' :: r => some (.bool false, r)
      | '"' :: r =>
          match parseStrChars r with
          | some (cs2, r2) => some (.str ⟨cs2⟩, r2)
          | none => none
      | '[' :: r =>
          match r with
          | [] => none
          | c :: t =>
              if c = ']' then some (.arr [], t)
              else
                match parseElems fuel (c :: t) with
                | some (es, r2) => some (.arr es, r2)
                | none => none
      | '{' :: r =>
          match r with
          | [] => none
          | c :: t =>
              if c = '}' then some (.obj [], t)
              else
                match parseMembers fuel (c :: t) with
                | some (ms, r2) => some (.obj ms, r2)
                | none => none
      | '-' :: c :: r =>
          if isDigitChar c then
            let p := readDigits (c :: r) 0
            some (.num (-(p.1 : Int)), p.2)
          else none
      | c :: r =>
          if isDigitChar c then
            let p := readDigits (c :: r) 0
            some (.num (p.1 : Int), p.2)
          else none
      | [] => none
/-- Parser for a nonempty comma-separated element list up to `]`. -/
def parseElems : Nat → List Char → Option (List Json × List Char)
  | 0, _ => none
  | fuel + 1, cs =>
      match parseVal fuel cs with
      | none => none
      | some (v, r) =>
          match r with
          | [] => none
          | c :: r2 =>
              if c = ',' then
                match parseElems fuel r2 with
                | some (vs, r3) => some (v :: vs, r3)
                | none => none
              else if c = ']' then some ([v], r2)
              else none
/-- Parser for a nonempty comma-separated member list up to `}`. -/
def parseMembers : Nat → List Char → Option (List (String × Json) × List Char)
  | 0, _ => none
  | fuel + 1, cs =>
      match cs with
      | '"' :: r =>
          match parseStrChars r with
          | none => none
          | some (k, r1) =>
              match r1 with
              | ':' :: r2 =>
                  match parseVal fuel r2 with
                  | none => none
                  | some (v, r3) =>
                      match r3 with
                      | [] => none
                      | c :: r4 =>
                          if c = ',' then
                            match parseMembers fuel r4 with
                            | some (ms, r5) => some ((⟨k⟩, v) :: ms, r5)
                            | none => none
                          else if c = '}' then some ([(⟨k⟩, v)], r4)
                          else none
              | _ => none
      | _ => none
end

/-- The embedding of `JSON.parse` (on the strict subset): parse a complete
document, rejecting trailing characters. -/
def Json.parse (s : String) : Option Json :=
  match parseVal (s.data.length + 1) s.data with
  | some (j, []) => some j
  | _ => none

/-- Head-guard for number parsing: the remainder cannot extend a decimal
numeral.  Every JSON delimiter (`,`, `]`, `}`, end of input) qualifies. -/
def headNotDigit : List Char → Bool
  | [] => true
  | c :: _ => !isDigitChar c

/-- Property access `v[key]` on a decoded JSON value: `none` models the JS
`undefined` (absent key, or access on a non-object).  A duplicated key takes
the last occurrence, as in a JS object literal built by `JSON.parse`. -/
def Json.getField : Json → String → Option Json
  | .obj ms, key => ms.foldl (fun acc kv => if kv.1 = key then some kv.2 else acc) none
  | _, _ => none

/-- JS truthiness of a JSON value (`undefined` is handled by `Option` at the
call sites). -/
def jsTruthy : Json → Bool
  | .null => false
  | .bool b => b
  | .num n => !(n == 0)
  | .str s => !(s == "")
  | .arr _ => true
  | .obj _ => true

mutual
/-- JS `String(x)` coercion of a JSON value, as used by template literals and
`new Error`.  Arrays join their elements with commas (`null` showing as the
empty string); plain objects display as `[object Object]`. -/
def jsDisplay : Json → String
  | .null => "null"
  | .bool true => "true"
  | .bool false => "false"
  | .num n => ⟨Json.intChars n⟩
  | .str s => s
  | .arr es => ⟨jsDisplayElems es⟩
  | .obj _ => "[object Object]"
termination_by structural j => j
/-- Characters of the JS `Array.prototype.toString` join of a list of values. -/
def jsDisplayElems : List Json → List Char
  | [] => []
  | .null :: es => jsDisplaySep es
  | e :: es => (jsDisplay e).data ++ jsDisplaySep es
termination_by structural es => es
/-- Continuation of an array join, prefixing each element with a comma
(`null` elements display as the empty string, as in `Array.prototype.join`). -/
def jsDisplaySep : List Json → List Char
  | [] => []
  | .null :: es => ',' :: jsDisplaySep es
  | e :: es => ',' :: ((jsDisplay e).data ++ jsDisplaySep es)
termination_by structural es => es
end

/-!
Credential extractor (src/src/core/auth.js, helpers from src/src/utils/helpers.js)
-/

/-- The page environment a content script sees: the `innerHTML` of every
`<script>` tag in document order, the raw `document.cookie` string, and the
decoded query parameters of `window.location.search` (the `URLSearchParams`
view, as an ordered association list). -/
structure PageEnv where
  scripts : List String
  cookieStr : String
  urlParams : List (String × String)

/-- The helpers.js `getCookie`: split `"; " ++ document.cookie` on
`"; name="`; exactly two parts means one occurrence, whose remainder up to the
next `;` is the value; anything else (including a doubled name) is
`undefined`. -/
def getCookie (cookieStr name : String) : Option String :=
  let value := "; " ++ cookieStr
  let parts := value.splitOn ("; " ++ name ++ "=")
  if parts.length = 2 then
    some ((((parts.getLast?).getD "").splitOn ";").headD "")
  else none

/-- The helpers.js `getURLParameter`: `URLSearchParams.get`, returning the
first value bound to the name, or `null` (here `none`). -/
def getURLParameter (env : PageEnv) (name : String) : Option String :=
  env.urlParams.lookup name

/-- The config.js cookie name `CONFIG.COOKIES.USER_ID`. -/
def COOKIES_USER_ID : String := "i_user"

/-- The auth.js `checkAuth`: page authentication iff the `i_user` cookie is
present (`getCookie(...) !== undefined`). -/
def checkAuth (env : PageEnv) : Bool :=
  (getCookie env.cookieStr COOKIES_USER_ID).isSome

/-- The character class `[A-Za-z0-9]` of the bearer-token regexes. -/
def isTokenChar (c : Char) : Bool :=
  (65 ≤ c.toNat && c.toNat ≤ 90) || (97 ≤ c.toNat && c.toNat ≤ 122) ||
    (48 ≤ c.toNat && c.toNat ≤ 57)

/-- Attempt of the auth.js token regex `/"(EA[A-Za-z0-9]{20,})"/` at one
position.  The greedy `{20,}` takes the maximal run of token characters; a
shorter run would leave a token character (never `"`) as the next input, so
backtracking cannot help, and the attempt succeeds exactly when the maximal
run after `EA` has length at least 20 and is followed by a closing quote.
Returns the capture group (quotes excluded). -/
def tokenMatchAt : List Char → Option String
  | '"' :: 'E' :: 'A' :: rest =>
      if 20 ≤ (rest.takeWhile isTokenChar).length ∧
          (rest.dropWhile isTokenChar).head? = some '"' then
        some ⟨'E' :: 'A' :: rest.takeWhile isTokenChar⟩
      else none
  | _ => none

/-- `tokenRegex.exec`: leftmost match of the token regex, scanning positions
left to right. -/
def tokenRegexExec : List Char → Option String
  | [] => none
  | c :: rest =>
      match tokenMatchAt (c :: rest) with
      | some t => some t
      | none => tokenRegexExec rest

/-- Case-insensitive literal prefix test (the `/i` flag; the pattern is
ASCII). -/
def ciStartsWith : List Char → List Char → Bool
  | [], _ => true
  | _ :: _, [] => false
  | p :: ps, c :: cs => (p.toLower == c.toLower) && ciStartsWith ps cs

/-- Line terminators, which `.` never matches in a JS regex without `/s`. -/
def isLineTerminator (c : Char) : Bool :=
  c == '\n' || c == '\r' || c.toNat == 0x2028 || c.toNat == 0x2029

/-- The lazy capture `(.*?)"`: the shortest run of non-terminator characters
up to a closing quote; no closing quote before a line terminator (or the end)
means the attempt fails at this position. -/
def lazyCaptureToQuote : List Char → Option (List Char × List Char)
  | [] => none
  | '"' :: rest => some ([], rest)
  | c :: rest =>
      if isLineTerminator c then none
      else
        match lazyCaptureToQuote rest with
        | some (cap, r) => some (c :: cap, r)
        | none => none

/-- The literal part of the auth.js account-id regex
`/selected_account_id:"(.*?)"/i`. -/
def selAccountPattern : List Char := "selected_account_id:\"".data

/-- Attempt of the account-id regex at one position. -/
def accountIdMatchAt (s : List Char) : Option String :=
  if ciStartsWith selAccountPattern s then
    match lazyCaptureToQuote (s.drop selAccountPattern.length) with
    | some (cap, _) => some ⟨cap⟩
    | none => none
  else none

/-- `elementIdRegEx.exec`: leftmost match of the account-id regex. -/
def accountIdRegexExec : List Char → Option String
  | [] => none
  | c :: rest =>
      match accountIdMatchAt (c :: rest) with
      | some a => some a
      | none => accountIdRegexExec rest

/-- JS falsiness of an optional string: `null`/`undefined` or the empty
string. -/
def jsStrFalsy : Option String → Bool
  | none => true
  | some s => s == ""

/-- The token/account-id accumulation loop of auth.js `getAccessToken` over
the script blocks: a found token is never overwritten (`if (!token)`), and the
account id is only scraped while no URL-selected account exists and none was
scraped yet (`if (!selectedAccount && !accountId)`, where a regex match with
an empty capture group is falsy and leaves the accumulator unchanged). -/
def scanScripts (selActive : Bool) : List String → String → String → String × String
  | [], token, accountId => (token, accountId)
  | html :: rest, token, accountId =>
      let token' :=
        if token = "" then
          match tokenRegexExec html.data with
          | some t => t
          | none => token
        else token
      let accountId' :=
        if !selActive && accountId == "" then
          match accountIdRegexExec html.data with
          | some a => if a = "" then accountId else a
          | none => accountId
        else accountId
      scanScripts selActive rest token' accountId'

/-- Remove the first occurrence of `pat` from a character list (JS
`String.replace` with a string pattern and empty replacement). -/
def removeFirstOcc (pat : List Char) : List Char → List Char
  | [] => []
  | c :: rest =>
      if pat.isPrefixOf (c :: rest) then (c :: rest).drop pat.length
      else c :: removeFirstOcc pat rest

/-- The Credentials record auth.js `getAccessToken` returns. -/
structure Credentials where
  token : String
  accountId : String
  isPageAuth : Bool

/-- The auth.js `getAccessToken`: classify the auth mode, read the `act` URL
parameter, scan all script blocks for the token and account-id patterns, and
prefer the URL-selected account (with its first `act=` prefix removed) over
anything scraped.  Total by construction: a field that was not found is the
empty string. -/
def getAccessToken (env : PageEnv) : Credentials :=
  let isPageAuth := checkAuth env
  let selectedAccount := getURLParameter env "act"
  let scanned := scanScripts (!jsStrFalsy selectedAccount) env.scripts "" ""
  let accountId :=
    match selectedAccount with
    | some sa => if sa = "" then scanned.2 else ⟨removeFirstOcc "act=".data sa.data⟩
    | none => scanned.2
  { token := scanned.1, accountId := accountId, isPageAuth := isPageAuth }

/-- The auth.js `validateToken`: falsy tokens fail, otherwise the anchored
shape `^EA[A-Za-z0-9]{20,}$`. -/
def validateToken (token : String) : Bool :=
  if token = "" then false
  else
    match token.data with
    | 'E' :: 'A' :: rest => (20 ≤ rest.length : Bool) && rest.all isTokenChar
    | _ => false

/-!
Request dispatcher (src/src/core/api.js, config from src/src/core/config.js)
-/

/-- The config.js Graph API version. -/
def FB_API_VERSION : String := "v18.0"

/-- The Graph API base URL. -/
def FB_GRAPH_API_BASE : String := "https://graph.facebook.com/" ++ FB_API_VERSION

/-- The GraphQL endpoint URL. -/
def FB_GRAPHQL_API : String := "https://www.facebook.com/api/graphql/"

/-- A `fetch` response as the dispatcher consumes it: HTTP status, status
text, and the raw body (`response.json()` is `Json.parse` of the body;
`response.ok` is the 2xx test). -/
structure HttpResponse where
  status : Nat
  statusText : String
  body : String

/-- The `Response.ok` flag: status in the 2xx range. -/
def respOk (r : HttpResponse) : Bool := 200 ≤ r.status && r.status < 300

/-- A JS exception as the dispatcher surfaces it: an `Error` constructed with
a message, the `SyntaxError` a failed `JSON.parse`/`response.json()` raises,
or the `TypeError` of calling `.map` on a non-array. -/
inductive JsErr where
  | thrown (msg : String)
  | jsonSyntaxError
  | typeError
deriving DecidableEq

/-- An outbound HTTP request as the dispatcher builds it: base URL, path
appended to it, decoded query-string pairs in order, method, headers, and the
form-encoded body pairs when one is sent. -/
structure Request where
  base : String
  path : String
  query : List (String × String)
  method : String
  headers : List (String × String)
  body : Option (List (String × String))

/-- The message of the missing-credential error every dispatcher operation
throws before any I/O. -/
def missingTokenMsg : String := "Access token is required. Please pass it explicitly."

/-- The methods whose parameters go to the request body. -/
def bodyMethods : List String := ["POST", "PUT", "PATCH"]

/-- The JS object spread `{...params, access_token: token}`: an existing
`access_token` key keeps its position but takes the new value, otherwise the
pair is appended. -/
def objAssign (ps : List (String × String)) (k v : String) : List (String × String) :=
  if ps.any (fun p => p.1 = k) then ps.map (fun p => if p.1 = k then (k, v) else p)
  else ps ++ [(k, v)]

/-- Options of `graphAPIRequest` with their defaults. -/
structure GraphOptions where
  method : String := "GET"
  params : List (String × String) := []
  accessToken : Option String := none

/-- Phase one of api.js `graphAPIRequest`: reject a falsy token before any
I/O, then build the request — mutating methods carry the token in the query
string and the parameters in a form-encoded body, every other method puts all
parameters and then the token into the query string. -/
def graphAPIRequest_build (endpoint : String) (o : GraphOptions) : Except JsErr Request :=
  if jsStrFalsy o.accessToken then .error (.thrown missingTokenMsg)
  else
    let token := o.accessToken.getD ""
    if bodyMethods.contains o.method then
      .ok { base := FB_GRAPH_API_BASE, path := endpoint,
            query := [("access_token", token)], method := o.method,
            headers := [("Content-Type", "application/x-www-form-urlencoded")],
            body := some o.params }
    else
      .ok { base := FB_GRAPH_API_BASE, path := endpoint,
            query := objAssign o.params "access_token" token, method := o.method,
            headers := [], body := none }

/-- One `errorData.error?.<key> || fallback` lookup of the error folding,
with the JS falsiness of `||` and the string coercion of the template
literal. -/
def graphErrorDetail (errorData : Json) (key fallback : String) : String :=
  match Json.getField errorData "error" with
  | some err =>
      match Json.getField err key with
      | some v => if jsTruthy v then jsDisplay v else fallback
      | none => fallback
  | none => fallback

/-- Phase two of api.js `graphAPIRequest`: a 2xx response is decoded and
returned; a non-2xx response has its body decoded (an undecodable body lets
the `response.json()` `SyntaxError` propagate unchanged) and its error object
folded into one thrown message. -/
def graphAPIRequest_handle (r : HttpResponse) : Except JsErr Json :=
  if respOk r then
    match Json.parse r.body with
    | some j => .ok j
    | none => .error .jsonSyntaxError
  else
    match Json.parse r.body with
    | none => .error .jsonSyntaxError
    | some errorData =>
        .error (.thrown (graphErrorDetail errorData "message" "API request failed"
          ++ " (Code: " ++ graphErrorDetail errorData "code" "UNKNOWN"
          ++ ", Type: " ++ graphErrorDetail errorData "type" "Unknown" ++ ")"))

/-- The api.js `graphAPIRequest` as a whole: the result, paired with the list
of fetch calls performed (empty when the operation rejects before I/O). -/
def graphAPIRequest (endpoint : String) (o : GraphOptions)
    (net : Request → HttpResponse) : Except JsErr Json × List Request :=
  match graphAPIRequest_build endpoint o with
  | .error e => (.error e, [])
  | .ok req => (graphAPIRequest_handle (net req), [req])

/-- Phase one of api.js `graphQLRequest`: reject a falsy token before any
I/O, then build the fixed-shape form-encoded POST, appending in source order
the token, the extra parameters, the document id, the JSON-serialised
variables, the friendly name and the constant caller class. -/
def graphQLRequest_build (docId : String) (vars : Json) (friendlyName : String)
    (accessToken : Option String) (extraParams : List (String × String)) :
    Except JsErr Request :=
  if jsStrFalsy accessToken then .error (.thrown missingTokenMsg)
  else
    .ok { base := FB_GRAPHQL_API, path := "", query := [], method := "POST",
          headers := [("Content-Type", "application/x-www-form-urlencoded")],
          body := some (("access_token", accessToken.getD "") :: extraParams ++
            [("doc_id", docId), ("variables", Json.stringify vars),
             ("fb_api_req_friendly_name", friendlyName),
             ("fb_api_caller_class", "RelayModern")]) }

/-- The message of the first entry of a GraphQL `errors` array
(`new Error(result.errors[0].message)`; an absent `message` yields the empty
message of `new Error(undefined)`). -/
def errorFirstMessage (e : Json) : String :=
  match Json.getField e "message" with
  | none => ""
  | some m => jsDisplay m

/-- Phase two of api.js `graphQLRequest`: a non-2xx status throws the raw
status message; otherwise the body is decoded, a nonempty `errors` array
throws the first entry's message, and the decoded body is returned unchanged
otherwise.  A non-array truthy `errors` value, which the platform does not
produce, is modelled as the no-error path. -/
def graphQLRequest_handle (r : HttpResponse) : Except JsErr Json :=
  if respOk r then
    match Json.parse r.body with
    | none => .error .jsonSyntaxError
    | some result =>
        match Json.getField result "errors" with
        | some (.arr (e :: _)) => .error (.thrown (errorFirstMessage e))
        | _ => .ok result
  else .error (.thrown ("HTTP error! status: " ++ (⟨natDigs r.status⟩ : String)))

/-- The api.js `graphQLRequest` as a whole, with its fetch trace. -/
def graphQLRequest (docId : String) (vars : Json) (friendlyName : String)
    (accessToken : Option String) (extraParams : List (String × String))
    (net : Request → HttpResponse) : Except JsErr Json × List Request :=
  match graphQLRequest_build docId vars friendlyName accessToken extraParams with
  | .error e => (.error e, [])
  | .ok req => (graphQLRequest_handle (net req), [req])

/-- Uppercase hexadecimal digit, as percent-encoding emits. -/
def upHexOf : Nat → Char
  | 0 => '0' | 1 => '1' | 2 => '2' | 3 => '3' | 4 => '4'
  | 5 => '5' | 6 => '6' | 7 => '7' | 8 => '8' | 9 => '9'
  | 10 => 'A' | 11 => 'B' | 12 => 'C' | 13 => 'D' | 14 => 'E' | _ => 'F'

/-- Characters surviving `application/x-www-form-urlencoded` serialisation
unescaped. -/
def isFormSafeChar (c : Char) : Bool :=
  (65 ≤ c.toNat && c.toNat ≤ 90) || (97 ≤ c.toNat && c.toNat ≤ 122) ||
    (48 ≤ c.toNat && c.toNat ≤ 57) || c == '*' || c == '-' || c == '.' || c == '_'

/-- Form-encoding of one character: safe characters verbatim, space as `+`,
anything else as percent-escaped UTF-8 bytes. -/
def formEncodeChar (c : Char) : List Char :=
  if c = ' ' then ['+']
  else if isFormSafeChar c then [c]
  else
    (String.toUTF8 ⟨[c]⟩).toList.flatMap
      (fun b => ['%', upHexOf (b.toNat / 16), upHexOf (b.toNat % 16)])

/-- `URLSearchParams.toString` on an ordered pair list. -/
def formEncode (ps : List (String × String)) : String :=
  String.intercalate "&"
    (ps.map fun p => (⟨p.1.data.flatMap formEncodeChar⟩ : String) ++ "=" ++
      (⟨p.2.data.flatMap formEncodeChar⟩ : String))

/-- One entry of a batched call, as callers pass it. -/
structure BatchRequestSpec where
  method : Option String := none
  endpoint : String
  params : Option (List (String × String)) := none

/-- The `{method, relative_url}` JSON object api.js builds for one batch
entry (`req.method || 'GET'`, and a present — even empty — params object
appends a serialised query string). -/
def batchEntryJson (r : BatchRequestSpec) : Json :=
  .obj [("method", .str (match r.method with
          | some m => if m = "" then "GET" else m
          | none => "GET")),
        ("relative_url", .str (r.endpoint ++ (match r.params with
          | some ps => "?" ++ formEncode ps
          | none => "")))]

/-- Phase one of api.js `batchGraphAPIRequests`: reject a falsy token before
any I/O, then build the single POST whose query carries the token and the
JSON-serialised batch array. -/
def batchGraphAPIRequests_build (requests : List BatchRequestSpec)
    (accessToken : Option String) : Except JsErr Request :=
  if jsStrFalsy accessToken then .error (.thrown missingTokenMsg)
  else
    .ok { base := FB_GRAPH_API_BASE, path := "",
          query := [("access_token", accessToken.getD ""),
                    ("batch", Json.stringify (.arr (requests.map batchEntryJson)))],
          method := "POST", headers := [], body := none }

/-- The uniform per-call result shape feature modules consume. -/
inductive ApiResult where
  | success (data : Json)
  | failure (error : Json)

/-- The strict `result.code !== 200` test of the batch result mapping. -/
def batchCodeIs200 (e : Json) : Bool :=
  match Json.getField e "code" with
  | some (.num n) => n == 200
  | _ => false

/-- One entry of the batch response array mapped to an `ApiResult`: nested
status 200 yields success with the decoded body, anything else failure with
the decoded body; an undecodable body throws.  The platform contract makes
`body` a JSON-encoded string; other shapes are modelled as the same decode
failure. -/
def processBatchEntry (e : Json) : Except JsErr ApiResult :=
  match Json.getField e "body" with
  | some (.str s) =>
      match Json.parse s with
      | some parsed =>
          .ok (if batchCodeIs200 e then .success parsed else .failure parsed)
      | none => .error .jsonSyntaxError
  | _ => .error .jsonSyntaxError

/-- Phase two of api.js `batchGraphAPIRequests`: a non-2xx status throws the
fixed batch failure; otherwise the decoded body must be an array (`.map` on
anything else raises a `TypeError`) and every entry is mapped independently,
the first throwing entry aborting the whole call as an exception does in
`Array.prototype.map`. -/
def batchGraphAPIRequests_handle (r : HttpResponse) : Except JsErr (List ApiResult) :=
  if respOk r then
    match Json.parse r.body with
    | none => .error .jsonSyntaxError
    | some (.arr es) => es.mapM processBatchEntry
    | some _ => .error .typeError
  else .error (.thrown "Batch request failed")

/-- The api.js `batchGraphAPIRequests` as a whole, with its fetch trace. -/
def batchGraphAPIRequests (requests : List BatchRequestSpec)
    (accessToken : Option String) (net : Request → HttpResponse) :
    Except JsErr (List ApiResult) × List Request :=
  match batchGraphAPIRequests_build requests accessToken with
  | .error e => (.error e, [])
  | .ok req => (batchGraphAPIRequests_handle (net req), [req])


/-!
Concrete fixtures used by counterexamples and witnesses
-/

/-- A bearer-token-shaped string: `EA` followed by twenty alphanumerics. -/
def c2TokenA : String := "EAXXXXXXXXXXXXXXXXXXXX"

/-- A second, distinct bearer-token-shaped string. -/
def c2TokenB : String := "EAYYYYYYYYYYYYYYYYYYYY"

/-- A page whose first and second script blocks each contain a distinct
properly quoted bearer token. -/
def c2Env : PageEnv :=
  { scripts := ["var a = \"EAXXXXXXXXXXXXXXXXXXXX\";", "var b = \"EAYYYYYYYYYYYYYYYYYYYY\";"],
    cookieStr := "", urlParams := [] }

/-- A script block containing a quote, `EA` and twenty alphanumerics, with no
closing quote after them. -/
def c8Script : String := "q = \"EAXXXXXXXXXXXXXXXXXXXX;"

/-- The single-block page built from `c8Script`. -/
def c8Env : PageEnv := { scripts := [c8Script], cookieStr := "", urlParams := [] }

/-- The decoded body of the first (successful) batch sub-response. -/
def c5Body200 : Json := .obj [("id", .str "1")]

/-- The decoded body of the second (failing) batch sub-response. -/
def c5Body400 : Json := .obj [("error", .obj [("message", .str "bad")])]

/-- A batch response entry with nested status 200. -/
def c5Entry1 : Json := .obj [("code", .num 200), ("body", .str (Json.stringify c5Body200))]

/-- A batch response entry with nested status 400. -/
def c5Entry2 : Json := .obj [("code", .num 400), ("body", .str (Json.stringify c5Body400))]

/-- The full batched-call HTTP response carrying both entries. -/
def c5Resp : HttpResponse :=
  { status := 200, statusText := "OK", body := Json.stringify (.arr [c5Entry1, c5Entry2]) }

/-!
Round-trip of the JSON codec

`Json.parse` inverts `Json.stringify` on every value.  The development follows
the usual printer/parser inversion: digit-run lemmas, the string-escape
inverse, head-character facts about rendered output, and a mutual induction
over the value, the element list and the member list.
-/

theorem digitOf_spec (d : Nat) (h : d < 10) :
    digitVal (digitOf d) = d ∧ isDigitChar (digitOf d) = true := by
  interval_cases d <;> exact ⟨by decide, by decide⟩

theorem natDigs_digits (n : Nat) : ∀ c ∈ natDigs n, isDigitChar c = true := by
  induction n using Nat.strong_induction_on with
  | _ n ih =>
    rw [natDigs.eq_def]
    split
    · rename_i h
      intro c hc
      rw [List.mem_singleton] at hc
      subst hc
      exact (digitOf_spec n h).2
    · rename_i h
      intro c hc
      rw [List.mem_append] at hc
      rcases hc with hc | hc
      · exact ih (n / 10) (Nat.div_lt_self (by omega) (by omega)) c hc
      · rw [List.mem_singleton] at hc
        subst hc
        exact (digitOf_spec (n % 10) (Nat.mod_lt _ (by omega))).2

theorem natDigs_ne_nil (n : Nat) : natDigs n ≠ [] := by
  rw [natDigs.eq_def]
  split <;> simp

theorem natDigs_head (n : Nat) :
    ∃ c t, natDigs n = c :: t ∧ isDigitChar c = true := by
  match h : natDigs n with
  | [] => exact absurd h (natDigs_ne_nil n)
  | c :: t =>
      exact ⟨c, t, rfl, natDigs_digits n c (h ▸ List.mem_cons_self c t)⟩

theorem readDigits_append (ds : List Char) (hds : ∀ c ∈ ds, isDigitChar c = true) :
    ∀ (rest : List Char) (acc : Nat), headNotDigit rest = true →
      readDigits (ds ++ rest) acc
        = (ds.foldl (fun a c => a * 10 + digitVal c) acc, rest) := by
  induction ds with
  | nil =>
      intro rest acc hrest
      cases rest with
      | nil => simp [readDigits]
      | cons c t =>
          simp only [headNotDigit, Bool.not_eq_true'] at hrest
          simp [readDigits, hrest]
  | cons c ds ih =>
      intro rest acc hrest
      have hc := hds c (List.mem_cons_self c ds)
      simp only [List.cons_append, readDigits, hc, if_true, List.foldl_cons]
      exact ih (fun x hx => hds x (List.mem_cons_of_mem c hx)) rest _ hrest

theorem foldl_natDigs (n : Nat) : ∀ acc : Nat,
    (natDigs n).foldl (fun a c => a * 10 + digitVal c) acc
      = acc * 10 ^ (natDigs n).length + n := by
  induction n using Nat.strong_induction_on with
  | _ n ih =>
    intro acc
    rw [natDigs.eq_def]
    split
    · rename_i h
      simp [List.foldl, (digitOf_spec n h).1]
    · rename_i h
      rw [List.foldl_append, ih (n / 10) (Nat.div_lt_self (by omega) (by omega)) acc]
      simp only [List.foldl_cons, List.foldl_nil,
        (digitOf_spec (n % 10) (Nat.mod_lt _ (by omega))).1, List.length_append,
        List.length_singleton]
      rw [pow_succ, ← mul_assoc]
      generalize acc * 10 ^ (natDigs (n / 10)).length = a
      omega

theorem readDigits_natDigs (n : Nat) (rest : List Char) (h : headNotDigit rest = true) :
    readDigits (natDigs n ++ rest) 0 = (n, rest) := by
  rw [readDigits_append (natDigs n) (natDigs_digits n) rest 0 h, foldl_natDigs]
  simp

theorem hexValOf_hexOf (d : Nat) (h : d < 16) : hexValOf (hexOf d) = some d := by
  interval_cases d <;> decide

theorem parseStrChars_escape (c : Char) (rest : List Char) :
    parseStrChars (escapeJsonChar c ++ rest)
      = match parseStrChars rest with
        | some (cs, r) => some (c :: cs, r)
        | none => none := by
  by_cases h1 : c = '"'
  · subst h1
    simp only [escapeJsonChar, if_pos rfl, List.cons_append, List.nil_append]
    rw [parseStrChars.eq_def]
    simp [unescapeJsonChar]
  by_cases h2 : c = '\\'
  · subst h2
    simp only [escapeJsonChar, if_neg (by decide : ¬ ('\\' : Char) = '"'), if_pos rfl,
      List.cons_append, List.nil_append]
    rw [parseStrChars.eq_def]
    simp [unescapeJsonChar]
  by_cases h3 : c = Char.ofNat 8
  · subst h3
    simp only [escapeJsonChar, if_neg (by decide : ¬ Char.ofNat 8 = '"'),
      if_neg (by decide : ¬ Char.ofNat 8 = '\\'), if_pos rfl, List.cons_append, List.nil_append]
    rw [parseStrChars.eq_def]
    simp [unescapeJsonChar]
  by_cases h4 : c = '\t'
  · subst h4
    simp only [escapeJsonChar, if_neg (by decide : ¬ ('\t' : Char) = '"'),
      if_neg (by decide : ¬ ('\t' : Char) = '\\'), if_neg (by decide : ¬ ('\t' : Char) = Char.ofNat 8),
      if_pos rfl, List.cons_append, List.nil_append]
    rw [parseStrChars.eq_def]
    simp [unescapeJsonChar]
  by_cases h5 : c = '\n'
  · subst h5
    have he : escapeJsonChar '\n' = ['\\', 'n'] := by decide
    rw [he]
    simp only [List.cons_append, List.nil_append]
    rw [parseStrChars.eq_def]
    simp [unescapeJsonChar]
  by_cases h6 : c = Char.ofNat 12
  · subst h6
    have he : escapeJsonChar (Char.ofNat 12) = ['\\', 'f'] := by decide
    rw [he]
    simp only [List.cons_append, List.nil_append]
    rw [parseStrChars.eq_def]
    simp [unescapeJsonChar]
  by_cases h7 : c = '\r'
  · subst h7
    have he : escapeJsonChar '\r' = ['\\', 'r'] := by decide
    rw [he]
    simp only [List.cons_append, List.nil_append]
    rw [parseStrChars.eq_def]
    simp [unescapeJsonChar]
  by_cases h8 : c.toNat < 32
  · have he : escapeJsonChar c
        = ['\\', 'u', '0', '0', hexOf (c.toNat / 16), hexOf (c.toNat % 16)] := by
      simp [escapeJsonChar, h1, h2, h3, h4, h5, h6, h7, h8]
    rw [he]
    have hhi : hexValOf (hexOf (c.toNat / 16)) = some (c.toNat / 16) :=
      hexValOf_hexOf _ (by omega)
    have hlo : hexValOf (hexOf (c.toNat % 16)) = some (c.toNat % 16) :=
      hexValOf_hexOf _ (by omega)
    have hc : Char.ofNat (((0 * 16 + 0) * 16 + c.toNat / 16) * 16 + c.toNat % 16) = c := by
      rw [show ((0 * 16 + 0) * 16 + c.toNat / 16) * 16 + c.toNat % 16 = c.toNat from by omega,
        Char.ofNat_toNat]
    simp only [List.cons_append, List.nil_append]
    rw [parseStrChars.eq_def]
    simp only [if_neg (by decide : ¬ ('\\' : Char) = '"'), if_pos rfl,
      show hexValOf '0' = some 0 from by decide, hhi, hlo]
    simp only [hc, if_true]
  · have he : escapeJsonChar c = [c] := by
      simp [escapeJsonChar, h1, h2, h3, h4, h5, h6, h7, h8]
    rw [he]
    simp only [List.cons_append, List.nil_append]
    rw [parseStrChars.eq_def]
    simp [h1, h2, h8]

theorem parseStrChars_flat (cs : List Char) : ∀ rest : List Char,
    parseStrChars (cs.flatMap escapeJsonChar ++ '"' :: rest) = some (cs, rest) := by
  induction cs with
  | nil =>
      intro rest
      simp only [List.flatMap_nil, List.nil_append]
      rw [parseStrChars.eq_def]
      simp
  | cons c cs ih =>
      intro rest
      rw [List.flatMap_cons, List.append_assoc, parseStrChars_escape, ih rest]

theorem digit_not_heads {c : Char} (h : isDigitChar c = true) :
    c ≠ 'n' ∧ c ≠ 't' ∧ c ≠ 'f' ∧ c ≠ '"' ∧ c ≠ '[' ∧ c ≠ '{' ∧ c ≠ '-' ∧ c ≠ ']' := by
  refine ⟨?_, ?_, ?_, ?_, ?_, ?_, ?_, ?_⟩ <;> (rintro rfl; exact absurd h (by decide))

theorem parseVal_digit (f : Nat) (c : Char) (t : List Char) (h : isDigitChar c = true) :
    parseVal (f + 1) (c :: t)
      = some (.num ((readDigits (c :: t) 0).1 : Int), (readDigits (c :: t) 0).2) := by
  obtain ⟨h1, h2, h3, h4, h5, h6, h7, _⟩ := digit_not_heads h
  rw [parseVal.eq_def]
  simp [h1, h2, h3, h4, h5, h6, h7, h]

theorem parseVal_neg (f : Nat) (c : Char) (t : List Char) (h : isDigitChar c = true) :
    parseVal (f + 1) ('-' :: c :: t)
      = some (.num (-((readDigits (c :: t) 0).1 : Int)), (readDigits (c :: t) 0).2) := by
  rw [parseVal.eq_def]
  simp [h]

theorem parseVal_str_step (f : Nat) (body : List Char) :
    parseVal (f + 1) ('"' :: body)
      = match parseStrChars body with
        | some (cs2, r2) => some (.str ⟨cs2⟩, r2)
        | none => none := by rfl

theorem parseVal_arr_step (f : Nat) (c : Char) (t : List Char) (hc : ¬ c = ']') :
    parseVal (f + 1) ('[' :: c :: t)
      = match parseElems f (c :: t) with
        | some (es, r2) => some (.arr es, r2)
        | none => none := by
  rw [parseVal.eq_def]
  simp [hc]

theorem parseVal_obj_step (f : Nat) (c : Char) (t : List Char) (hc : ¬ c = '}') :
    parseVal (f + 1) ('{' :: c :: t)
      = match parseMembers f (c :: t) with
        | some (ms, r2) => some (.obj ms, r2)
        | none => none := by
  rw [parseVal.eq_def]
  simp [hc]

theorem parseElems_step (f : Nat) (cs : List Char) :
    parseElems (f + 1) cs
      = match parseVal f cs with
        | none => none
        | some (v, r) =>
            match r with
            | [] => none
            | c :: r2 =>
                if c = ',' then
                  match parseElems f r2 with
                  | some (vs, r3) => some (v :: vs, r3)
                  | none => none
                else if c = ']' then some ([v], r2)
                else none := by rfl

theorem parseMembers_step (f : Nat) (r : List Char) :
    parseMembers (f + 1) ('"' :: r)
      = match parseStrChars r with
        | none => none
        | some (k, r1) =>
            match r1 with
            | ':' :: r2 =>
                match parseVal f r2 with
                | none => none
                | some (v, r3) =>
                    match r3 with
                    | [] => none
                    | c :: r4 =>
                        if c = ',' then
                          match parseMembers f r4 with
                          | some (ms, r5) => some ((⟨k⟩, v) :: ms, r5)
                          | none => none
                        else if c = '}' then some ([(⟨k⟩, v)], r4)
                        else none
            | _ => none := by rfl

theorem strL_head (j : Json) : ∃ c t, Json.strL j = c :: t ∧ ¬ c = ']' := by
  cases j with
  | null => exact ⟨'n', _, rfl, by decide⟩
  | bool b => cases b with
      | true => exact ⟨'t', _, rfl, by decide⟩
      | false => exact ⟨'f', _, rfl, by decide⟩
  | str s => exact ⟨'"', _, rfl, by decide⟩
  | arr es => exact ⟨'[', _, rfl, by decide⟩
  | obj ms => exact ⟨'{', _, rfl, by decide⟩
  | num n =>
      by_cases hm : n < 0
      · refine ⟨'-', natDigs n.natAbs, ?_, by decide⟩
        simp [Json.strL, Json.intChars, hm]
      · obtain ⟨d, t, hd, hdig⟩ := natDigs_head n.natAbs
        refine ⟨d, t, ?_, (digit_not_heads hdig).2.2.2.2.2.2.2⟩
        simp [Json.strL, Json.intChars, hm, hd]

mutual
theorem rt_val : ∀ (j : Json) (fuel : Nat) (rest : List Char),
    (Json.strL j).length < fuel → headNotDigit rest = true →
    parseVal fuel (Json.strL j ++ rest) = some (j, rest)
  | .null, fuel, rest, hf, _ => by
      cases fuel with
      | zero => exact absurd hf (Nat.not_lt_zero _)
      | succ f => rfl
  | .bool true, fuel, rest, hf, _ => by
      cases fuel with
      | zero => exact absurd hf (Nat.not_lt_zero _)
      | succ f => rfl
  | .bool false, fuel, rest, hf, _ => by
      cases fuel with
      | zero => exact absurd hf (Nat.not_lt_zero _)
      | succ f => rfl
  | .num n, fuel, rest, hf, hrest => by
      cases fuel with
      | zero => exact absurd hf (Nat.not_lt_zero _)
      | succ f =>
          by_cases hm : n < 0
          · have hs : Json.strL (.num n) = '-' :: natDigs n.natAbs := by
              simp [Json.strL, Json.intChars, hm]
            obtain ⟨d, t, hd, hdig⟩ := natDigs_head n.natAbs
            have hr : readDigits (d :: (t ++ rest)) 0 = (n.natAbs, rest) := by
              have h0 := readDigits_natDigs n.natAbs rest hrest
              rwa [hd, List.cons_append] at h0
            rw [hs, hd, List.cons_append, List.cons_append, parseVal_neg f d (t ++ rest) hdig,
              hr]
            have hn : -((n.natAbs : Int)) = n := by omega
            rw [hn]
          · have hs : Json.strL (.num n) = natDigs n.natAbs := by
              simp [Json.strL, Json.intChars, hm]
            obtain ⟨d, t, hd, hdig⟩ := natDigs_head n.natAbs
            have hr : readDigits (d :: (t ++ rest)) 0 = (n.natAbs, rest) := by
              have h0 := readDigits_natDigs n.natAbs rest hrest
              rwa [hd, List.cons_append] at h0
            rw [hs, hd, List.cons_append, parseVal_digit f d (t ++ rest) hdig, hr]
            have hn : ((n.natAbs : Nat) : Int) = n := by omega
            rw [hn]
  | .str s, fuel, rest, hf, _ => by
      cases fuel with
      | zero => exact absurd hf (Nat.not_lt_zero _)
      | succ f =>
          have hs : Json.strL (.str s) ++ rest
              = '"' :: (s.data.flatMap escapeJsonChar ++ '"' :: rest) := by
            simp [Json.strL, Json.strLitChars]
          rw [hs, parseVal_str_step f _, parseStrChars_flat s.data rest]
  | .arr [], fuel, rest, hf, _ => by
      cases fuel with
      | zero => exact absurd hf (Nat.not_lt_zero _)
      | succ f => rfl
  | .arr (e :: es), fuel, rest, hf, _ => by
      cases fuel with
      | zero => exact absurd hf (Nat.not_lt_zero _)
      | succ f =>
          obtain ⟨c, t0, he, hc⟩ := strL_head e
          have hec : Json.elemsChars (e :: es) = c :: (t0 ++ Json.elemsSep es) := by
            simp [Json.elemsChars, he]
          have hs : Json.strL (.arr (e :: es)) ++ rest
              = '[' :: (Json.elemsChars (e :: es) ++ ']' :: rest) := by
            simp [Json.strL]
          have hlen : (Json.elemsChars (e :: es)).length + 1 < f := by
            have : (Json.strL (.arr (e :: es))).length
                = (Json.elemsChars (e :: es)).length + 2 := by
              simp [Json.strL]
            omega
          rw [hs, hec, List.cons_append, parseVal_arr_step f c _ hc, ← List.cons_append,
            ← hec, rt_elems e es f rest hlen]
  | .obj [], fuel, rest, hf, _ => by
      cases fuel with
      | zero => exact absurd hf (Nat.not_lt_zero _)
      | succ f => rfl
  | .obj (m :: ms), fuel, rest, hf, _ => by
      cases fuel with
      | zero => exact absurd hf (Nat.not_lt_zero _)
      | succ f =>
          have hmc : Json.membersChars (m :: ms)
              = '"' :: ((m.1.data.flatMap escapeJsonChar ++ ['"']) ++
                  ':' :: (Json.strL m.2 ++ Json.membersSep ms)) := by
            obtain ⟨k, v⟩ := m
            simp [Json.membersChars, Json.strLitChars]
          have hs : Json.strL (.obj (m :: ms)) ++ rest
              = '{' :: (Json.membersChars (m :: ms) ++ '}' :: rest) := by
            simp [Json.strL]
          have hlen : (Json.membersChars (m :: ms)).length + 1 < f := by
            have : (Json.strL (.obj (m :: ms))).length
                = (Json.membersChars (m :: ms)).length + 2 := by
              simp [Json.strL]
            omega
          rw [hs, hmc, List.cons_append,
            parseVal_obj_step f '"' _ (by decide), ← List.cons_append, ← hmc,
            rt_members m ms f rest hlen]
termination_by j _ _ _ _ => sizeOf j
theorem rt_elems : ∀ (e : Json) (es : List Json) (fuel : Nat) (rest : List Char),
    (Json.elemsChars (e :: es)).length + 1 < fuel →
    parseElems fuel (Json.elemsChars (e :: es) ++ ']' :: rest) = some (e :: es, rest)
  | e, [], fuel, rest, hf => by
      cases fuel with
      | zero => exact absurd hf (Nat.not_lt_zero _)
      | succ f =>
          have hlen : (Json.strL e).length < f := by
            have : Json.elemsChars (e :: []) = Json.strL e ++ [] := by
              simp [Json.elemsChars, Json.elemsSep]
            rw [this] at hf
            simp at hf
            omega
          have hec : Json.elemsChars (e :: []) ++ ']' :: rest
              = Json.strL e ++ ']' :: rest := by
            simp [Json.elemsChars, Json.elemsSep]
          rw [hec, parseElems_step f _, rt_val e f (']' :: rest) hlen (by rfl)]
          simp
  | e, x :: xs, fuel, rest, hf => by
      cases fuel with
      | zero => exact absurd hf (Nat.not_lt_zero _)
      | succ f =>
          have hsplit : Json.elemsChars (e :: x :: xs) ++ ']' :: rest
              = Json.strL e ++ ',' :: (Json.elemsChars (x :: xs) ++ ']' :: rest) := by
            simp [Json.elemsChars, Json.elemsSep]
          have hlens : (Json.elemsChars (e :: x :: xs)).length
              = (Json.strL e).length + 1 + (Json.elemsChars (x :: xs)).length := by
            simp [Json.elemsChars, Json.elemsSep]
            omega
          have hle : (Json.strL e).length < f := by omega
          have hlx : (Json.elemsChars (x :: xs)).length + 1 < f := by omega
          rw [hsplit, parseElems_step f _,
            rt_val e f (',' :: (Json.elemsChars (x :: xs) ++ ']' :: rest)) hle (by rfl)]
          simp [rt_elems x xs f rest hlx]
termination_by e es _ _ _ => sizeOf e + sizeOf es
theorem rt_members : ∀ (m : String × Json) (ms : List (String × Json)) (fuel : Nat)
    (rest : List Char),
    (Json.membersChars (m :: ms)).length + 1 < fuel →
    parseMembers fuel (Json.membersChars (m :: ms) ++ '}' :: rest) = some (m :: ms, rest)
  | (k, v), [], fuel, rest, hf => by
      cases fuel with
      | zero => exact absurd hf (Nat.not_lt_zero _)
      | succ f =>
          have harg : Json.membersChars ((k, v) :: []) ++ '}' :: rest
              = '"' :: (k.data.flatMap escapeJsonChar ++
                  '"' :: (':' :: (Json.strL v ++ '}' :: rest))) := by
            simp [Json.membersChars, Json.strLitChars, Json.membersSep]
          have hlen : (Json.strL v).length < f := by
            have : (Json.membersChars ((k, v) :: [])).length
                = (Json.strLitChars k).length + 1 + (Json.strL v).length := by
              simp [Json.membersChars, Json.membersSep]
              omega
            omega
          rw [harg, parseMembers_step f _, parseStrChars_flat k.data _]
          simp only []
          rw [rt_val v f ('}' :: rest) hlen (by rfl)]
          simp
  | (k, v), m2 :: ms2, fuel, rest, hf => by
      cases fuel with
      | zero => exact absurd hf (Nat.not_lt_zero _)
      | succ f =>
          have harg : Json.membersChars ((k, v) :: m2 :: ms2) ++ '}' :: rest
              = '"' :: (k.data.flatMap escapeJsonChar ++
                  '"' :: (':' :: (Json.strL v ++
                    ',' :: (Json.membersChars (m2 :: ms2) ++ '}' :: rest)))) := by
            obtain ⟨k2, v2⟩ := m2
            simp [Json.membersChars, Json.strLitChars, Json.membersSep]
          have hlens : (Json.membersChars ((k, v) :: m2 :: ms2)).length
              = (Json.strLitChars k).length + 1 + (Json.strL v).length + 1 +
                  (Json.membersChars (m2 :: ms2)).length := by
            obtain ⟨k2, v2⟩ := m2
            simp [Json.membersChars, Json.strLitChars, Json.membersSep]
            omega
          have hlv : (Json.strL v).length < f := by omega
          have hlm : (Json.membersChars (m2 :: ms2)).length + 1 < f := by omega
          rw [harg, parseMembers_step f _, parseStrChars_flat k.data _]
          simp only []
          rw [rt_val v f (',' :: (Json.membersChars (m2 :: ms2) ++ '}' :: rest)) hlv (by rfl)]
          simp [rt_members m2 ms2 f rest hlm]
termination_by m ms _ _ _ => sizeOf m + sizeOf ms
end

/-- Parsing a rendered value recovers it exactly, for every `Json` value. -/
theorem parse_stringify (v : Json) : Json.parse (Json.stringify v) = some v := by
  have h := rt_val v ((Json.strL v).length + 1) [] (by omega) rfl
  rw [List.append_nil] at h
  simp only [Json.parse, Json.stringify, h]

/-!
Facts about the credential extractor
-/

theorem tokenMatchAt_some {s : List Char} {t : String} (h : tokenMatchAt s = some t) :
    ∃ run, t = (⟨'E' :: 'A' :: run⟩ : String) ∧ run.all isTokenChar = true ∧
      20 ≤ run.length := by
  unfold tokenMatchAt at h
  split at h
  · split at h
    · rename_i rest hcond
      refine ⟨rest.takeWhile isTokenChar, ?_, ?_, hcond.1⟩
      · exact (Option.some.injEq _ _).mp h |>.symm
      · exact List.all_eq_true.mpr fun c hc => List.mem_takeWhile_imp hc
    · exact absurd h (by simp)
  · exact absurd h (by simp)

theorem tokenRegexExec_some {l : List Char} {t : String} (h : tokenRegexExec l = some t) :
    ∃ run, t = (⟨'E' :: 'A' :: run⟩ : String) ∧ run.all isTokenChar = true ∧
      20 ≤ run.length := by
  induction l with
  | nil => simp [tokenRegexExec] at h
  | cons c rest ih =>
      have hstep : tokenRegexExec (c :: rest)
          = match tokenMatchAt (c :: rest) with
            | some t => some t
            | none => tokenRegexExec rest := rfl
      rw [hstep] at h
      split at h
      · rename_i t2 hmatch
        cases h
        exact tokenMatchAt_some hmatch
      · exact ih h

theorem tokenRegexExec_ne_empty {l : List Char} {t : String}
    (h : tokenRegexExec l = some t) : t ≠ "" := by
  obtain ⟨run, rfl, -, -⟩ := tokenRegexExec_some h
  intro heq
  have := congrArg String.data heq
  simp at this

theorem tokenRegexExec_valid {l : List Char} {t : String}
    (h : tokenRegexExec l = some t) : validateToken t = true := by
  obtain ⟨run, rfl, hall, hlen⟩ := tokenRegexExec_some h
  have hne : ¬ (⟨'E' :: 'A' :: run⟩ : String) = "" := by
    intro heq
    have := congrArg String.data heq
    simp at this
  simp [validateToken, hne, hall, hlen]

theorem scan_fst_stable (sel : Bool) :
    ∀ (ss : List String) (t a : String), t ≠ "" → (scanScripts sel ss t a).1 = t := by
  intro ss
  induction ss with
  | nil => intro t a _; rfl
  | cons html rest ih =>
      intro t a ht
      simp only [scanScripts, if_neg ht]
      exact ih t _ ht

theorem scan_fst_through_pre (sel : Bool) :
    ∀ (pre rest : List String) (a : String), (∀ s ∈ pre, tokenRegexExec s.data = none) →
      ∃ a2, scanScripts sel (pre ++ rest) "" a = scanScripts sel rest "" a2 := by
  intro pre
  induction pre with
  | nil => exact fun rest a _ => ⟨a, rfl⟩
  | cons html pre ih =>
      intro rest a hnone
      have hh : tokenRegexExec html.data = none := hnone html (List.mem_cons_self _ _)
      simp only [List.cons_append, scanScripts, hh, if_pos rfl]
      exact ih rest _ fun s hs => hnone s (List.mem_cons_of_mem _ hs)

theorem scan_all_none (sel : Bool) :
    ∀ (ss : List String), (∀ s ∈ ss, tokenRegexExec s.data = none) →
      (∀ s ∈ ss, accountIdRegexExec s.data = none) →
      scanScripts sel ss "" "" = ("", "") := by
  intro ss
  induction ss with
  | nil => intro _ _; rfl
  | cons html rest ih =>
      intro htok hacc
      have hh : tokenRegexExec html.data = none := htok html (List.mem_cons_self _ _)
      have ha : accountIdRegexExec html.data = none := hacc html (List.mem_cons_self _ _)
      have hstep := ih (fun s hs => htok s (List.mem_cons_of_mem _ hs))
        (fun s hs => hacc s (List.mem_cons_of_mem _ hs))
      simp only [scanScripts, hh, ha, if_pos rfl, ite_self]
      exact hstep

/-- C2 (amended): the extractor returns the candidate of the first script
block containing a token-regex match — the `if (!token)` guard makes the
first match win, and every later block is ignored — not the last block's
candidate. -/
theorem getAccessToken_token_of_first_match (env : PageEnv) (pre post : List String)
    (b t : String) (hs : env.scripts = pre ++ b :: post)
    (hpre : ∀ s ∈ pre, tokenRegexExec s.data = none)
    (hb : tokenRegexExec b.data = some t) :
    (getAccessToken env).token = t := by
  have hne : t ≠ "" := tokenRegexExec_ne_empty hb
  unfold getAccessToken
  simp only [hs]
  obtain ⟨a2, ha⟩ := scan_fst_through_pre (!jsStrFalsy (getURLParameter env "act"))
    pre (b :: post) "" hpre
  rw [ha]
  simp only [scanScripts, hb, if_pos rfl]
  exact scan_fst_stable _ post t _ hne

/-!
Facts about the request dispatcher
-/

theorem jsStrFalsy_iff (o : Option String) :
    jsStrFalsy o = true ↔ o = none ∨ o = some "" := by
  cases o with
  | none => simp [jsStrFalsy]
  | some s => simp [jsStrFalsy]

theorem lookup_skip (l : List (String × String)) (k : String)
    (h : ∀ p ∈ l, p.1 ≠ k) (l2 : List (String × String)) :
    (l ++ l2).lookup k = l2.lookup k := by
  induction l with
  | nil => rfl
  | cons p l ih =>
      obtain ⟨k1, v1⟩ := p
      have hbe : (k == k1) = false :=
        beq_eq_false_iff_ne.mpr fun he => h (k1, v1) (List.mem_cons_self _ _) he.symm
      simp only [List.cons_append, List.lookup, hbe]
      exact ih fun q hq => h q (List.mem_cons_of_mem _ hq)

theorem objAssign_lookup (ps : List (String × String)) (k v : String) :
    (objAssign ps k v).lookup k = some v := by
  unfold objAssign
  split
  · rename_i hany
    induction ps with
    | nil => simp at hany
    | cons p ps ih =>
        obtain ⟨k1, v1⟩ := p
        by_cases hp : k1 = k
        · simp only [List.map_cons, if_pos hp]
          simp [List.lookup]
        · have hbe : (k == k1) = false := beq_eq_false_iff_ne.mpr fun he => hp he.symm
          simp only [List.map_cons, if_neg hp]
          simp only [List.lookup, hbe]
          apply ih
          simp only [List.any_cons] at hany
          rcases Bool.or_eq_true_iff.mp hany with h1 | h1
          · exact absurd (by simpa using h1) hp
          · exact h1
  · rw [lookup_skip ps k ?hn [(k, v)]]
    · simp [List.lookup]
    · rename_i hany
      intro p hp he
      exact hany (List.any_eq_true.mpr ⟨p, hp, by simp [he]⟩)

theorem objAssign_mem_ne (ps : List (String × String)) (k v k2 v2 : String)
    (hk : k2 ≠ k) : (k2, v2) ∈ objAssign ps k v ↔ (k2, v2) ∈ ps := by
  unfold objAssign
  split
  · constructor
    · intro hm
      obtain ⟨p, hp, he⟩ := List.mem_map.mp hm
      by_cases hpk : p.1 = k
      · rw [if_pos hpk] at he
        exact absurd (congrArg Prod.fst he).symm hk
      · rw [if_neg hpk] at he
        exact he ▸ hp
    · intro hm
      refine List.mem_map.mpr ⟨(k2, v2), hm, ?_⟩
      rw [if_neg hk]
  · rw [List.mem_append]
    constructor
    · rintro (hm | hm)
      · exact hm
      · simp only [List.mem_singleton, Prod.mk.injEq] at hm
        exact absurd hm.1 hk
    · exact fun hm => Or.inl hm

theorem mapM_pointwise {α β ε : Type} (p : α → Except ε β) :
    ∀ es : List α, (∀ e ∈ es, ∃ b, p e = .ok b) →
      ∃ rs : List β, es.mapM p = .ok rs ∧ rs.length = es.length ∧
        ∀ (i : Nat) (e : α), es[i]? = some e →
          ∃ b, p e = .ok b ∧ rs[i]? = some b := by
  intro es
  induction es with
  | nil =>
      intro _
      exact ⟨[], rfl, rfl, fun i e he => by simp at he⟩
  | cons e es ih =>
      intro hall
      obtain ⟨b, hb⟩ := hall e (List.mem_cons_self _ _)
      obtain ⟨rs, hrs, hlen, hpt⟩ := ih fun x hx => hall x (List.mem_cons_of_mem _ hx)
      refine ⟨b :: rs, ?_, by simp [hlen], ?_⟩
      · rw [List.mapM_cons, hb, hrs]
        rfl
      · intro i x hx
        cases i with
        | zero =>
            simp only [List.getElem?_cons_zero, Option.some.injEq] at hx
            subst hx
            exact ⟨b, hb, by simp⟩
        | succ i =>
            simp only [List.getElem?_cons_succ] at hx
            obtain ⟨b2, hb2, hr2⟩ := hpt i x hx
            exact ⟨b2, hb2, by simpa using hr2⟩

/-!
The claims
-/

/-- C1: every Dispatcher operation (graphAPIRequest, graphQLRequest,
batchGraphAPIRequests) called with an empty or absent access token fails with
the missing-credential error and performs zero network calls: its fetch trace
is empty. -/
theorem dispatch_missing_token_no_fetch (tok : Option String)
    (h : tok = none ∨ tok = some "") :
    (∀ (endpoint method : String) (params : List (String × String))
        (net : Request → HttpResponse),
        graphAPIRequest endpoint { method := method, params := params, accessToken := tok } net
          = (.error (.thrown missingTokenMsg), [])) ∧
    (∀ (docId : String) (v : Json) (fn : String) (extra : List (String × String))
        (net : Request → HttpResponse),
        graphQLRequest docId v fn tok extra net = (.error (.thrown missingTokenMsg), [])) ∧
    (∀ (reqs : List BatchRequestSpec) (net : Request → HttpResponse),
        batchGraphAPIRequests reqs tok net = (.error (.thrown missingTokenMsg), [])) := by
  have hf : jsStrFalsy tok = true := (jsStrFalsy_iff tok).mpr h
  refine ⟨?_, ?_, ?_⟩
  · intro endpoint method params net
    simp [graphAPIRequest, graphAPIRequest_build, hf]
  · intro docId v fn extra net
    simp [graphQLRequest, graphQLRequest_build, hf]
  · intro reqs net
    simp [batchGraphAPIRequests, batchGraphAPIRequests_build, hf]

/-- Witness for C1: the empty token, on each operation at concrete
arguments. -/
theorem dispatch_missing_token_no_fetch_witness :
    (some "" = none ∨ (some "" : Option String) = some "") ∧
    graphAPIRequest "me" { accessToken := some "" } (fun _ => ⟨200, "OK", "{}"⟩)
      = (.error (.thrown missingTokenMsg), []) ∧
    graphQLRequest "123" (.obj []) "Fn" (some "") [] (fun _ => ⟨200, "OK", "{}"⟩)
      = (.error (.thrown missingTokenMsg), []) ∧
    batchGraphAPIRequests [] (some "") (fun _ => ⟨200, "OK", "{}"⟩)
      = (.error (.thrown missingTokenMsg), []) :=
  ⟨Or.inr rfl,
   (dispatch_missing_token_no_fetch (some "") (Or.inr rfl)).1 "me" "GET" [] _,
   (dispatch_missing_token_no_fetch (some "") (Or.inr rfl)).2.1 "123" (.obj []) "Fn" [] _,
   (dispatch_missing_token_no_fetch (some "") (Or.inr rfl)).2.2 [] _⟩

/-- C3 counterexample: the claim says every non-empty token failing the
bearer-token shape is still rejected before any request is sent; but with the
non-empty shape-violating token "EA", graphAPIRequest performs exactly one
fetch instead of rejecting. -/
theorem dispatch_malformed_token_counterexample :
    validateToken "EA" = false ∧ ("EA" : String) ≠ "" ∧
    (graphAPIRequest "me" { accessToken := some "EA" }
        (fun _ => ⟨200, "OK", "{}"⟩)).2.length = 1 :=
  ⟨by rfl, by decide, by rfl⟩

/-- C3 (amended): dispatch rejects exactly on an empty or absent token; the
bearer-token shape (validateToken) is not checked at dispatch time, so every
operation performs exactly one fetch for any non-empty token, including
tokens failing validateToken. -/
theorem dispatch_sends_any_nonempty_token (t : String) (ht : t ≠ "")
    (hshape : validateToken t = false) :
    (∀ (endpoint : String) (o : GraphOptions) (net : Request → HttpResponse),
        o.accessToken = some t → ((graphAPIRequest endpoint o net).2).length = 1) ∧
    (∀ (docId : String) (v : Json) (fn : String) (extra : List (String × String))
        (net : Request → HttpResponse),
        ((graphQLRequest docId v fn (some t) extra net).2).length = 1) ∧
    (∀ (reqs : List BatchRequestSpec) (net : Request → HttpResponse),
        ((batchGraphAPIRequests reqs (some t) net).2).length = 1) := by
  have hf : jsStrFalsy (some t) = false := by simp [jsStrFalsy, ht]
  refine ⟨?_, ?_, ?_⟩
  · intro endpoint o net htok
    simp only [graphAPIRequest, graphAPIRequest_build, htok, hf, Bool.false_eq_true,
      if_false]
    by_cases hb : o.method ∈ bodyMethods <;> simp [hb]
  · intro docId v fn extra net
    simp [graphQLRequest, graphQLRequest_build, hf]
  · intro reqs net
    simp [batchGraphAPIRequests, batchGraphAPIRequests_build, hf]

/-- Witness for C3 (amended) at the concrete malformed token "EA". -/
theorem dispatch_sends_any_nonempty_token_witness :
    ("EA" : String) ≠ "" ∧ validateToken "EA" = false ∧
    (graphAPIRequest "me" { accessToken := some "EA" }
        (fun _ => ⟨200, "OK", "{}"⟩)).2.length = 1 ∧
    (batchGraphAPIRequests [] (some "EA") (fun _ => ⟨200, "OK", "{}"⟩)).2.length = 1 :=
  ⟨by decide, by rfl,
   (dispatch_sends_any_nonempty_token "EA" (by decide) (by rfl)).1 "me" _ _ rfl,
   (dispatch_sends_any_nonempty_token "EA" (by decide) (by rfl)).2.2 [] _⟩

/-- C4 counterexample: the claim says a non-2xx response with an unparseable
body yields a failure whose message reports the raw status and status text;
but the code awaits `response.json()` unguarded, so the JSON syntax error
itself propagates, carrying no thrown message at all. -/
theorem graphAPIRequest_unparseable_body_counterexample :
    (graphAPIRequest "me" { accessToken := some "EAtesttoken" }
        (fun _ => ⟨400, "Bad Request", "<html>"⟩)).1
      = .error .jsonSyntaxError := by rfl

/-- C4 (amended): for a non-2xx response whose body is not parseable as JSON,
graphAPIRequest fails with the propagated JSON syntax error (no message, no
status text), after exactly the one fetch; the status and status text are not
reported. -/
theorem graphAPIRequest_unparseable_body_parse_error (endpoint : String)
    (o : GraphOptions) (t : String) (htok : o.accessToken = some t) (ht : t ≠ "")
    (net : Request → HttpResponse) (req : Request)
    (hbuild : graphAPIRequest_build endpoint o = .ok req)
    (hok : respOk (net req) = false) (hparse : Json.parse (net req).body = none) :
    graphAPIRequest endpoint o net = (.error .jsonSyntaxError, [req]) := by
  simp [graphAPIRequest, hbuild, graphAPIRequest_handle, hok, hparse]

/-- Witness for C4 (amended) at a concrete 400 response with an HTML body. -/
theorem graphAPIRequest_unparseable_body_parse_error_witness :
    respOk ⟨400, "Bad Request", "<html>"⟩ = false ∧
    Json.parse "<html>" = none ∧
    graphAPIRequest "me" { accessToken := some "EAtesttoken" }
        (fun _ => ⟨400, "Bad Request", "<html>"⟩)
      = (.error .jsonSyntaxError,
         [{ base := FB_GRAPH_API_BASE, path := "me",
            query := objAssign [] "access_token" "EAtesttoken", method := "GET",
            headers := [], body := none }]) :=
  ⟨rfl, by rfl,
   graphAPIRequest_unparseable_body_parse_error "me" _ "EAtesttoken" rfl (by decide)
     _ _ (by rfl) rfl (by rfl)⟩

/-- C6: in every request graphAPIRequest builds, a GET places all parameters
and the access token in the query string (the token overriding any
caller-supplied `access_token` key) with no body, while the mutating methods
POST/PUT/PATCH keep only the token in the query string and move all other
parameters to a form-encoded body. -/
theorem graphAPIRequest_query_body_split (endpoint : String) (o : GraphOptions)
    (t : String) (htok : o.accessToken = some t) (ht : t ≠ "") :
    (o.method = "GET" →
      ∃ req, graphAPIRequest_build endpoint o = .ok req ∧
        req.body = none ∧
        req.query = objAssign o.params "access_token" t ∧
        req.query.lookup "access_token" = some t ∧
        (∀ k v, k ≠ "access_token" → ((k, v) ∈ req.query ↔ (k, v) ∈ o.params))) ∧
    (o.method ∈ bodyMethods →
      ∃ req, graphAPIRequest_build endpoint o = .ok req ∧
        req.query = [("access_token", t)] ∧
        req.body = some o.params ∧
        req.headers = [("Content-Type", "application/x-www-form-urlencoded")]) := by
  have hf : jsStrFalsy (some t) = false := by simp [jsStrFalsy, ht]
  constructor
  · intro hm
    have hc : bodyMethods.contains o.method = false := by
      rw [hm]
      decide
    refine ⟨{ base := FB_GRAPH_API_BASE, path := endpoint,
              query := objAssign o.params "access_token" t, method := o.method,
              headers := [], body := none }, ?_, rfl, rfl, ?_, ?_⟩
    · have hc2 : ¬ o.method ∈ bodyMethods := by
        rw [hm]
        decide
      simp [graphAPIRequest_build, htok, hf, hc2]
    · exact objAssign_lookup o.params "access_token" t
    · exact fun k v hk => objAssign_mem_ne o.params "access_token" t k v hk
  · intro hm
    refine ⟨{ base := FB_GRAPH_API_BASE, path := endpoint,
              query := [("access_token", t)], method := o.method,
              headers := [("Content-Type", "application/x-www-form-urlencoded")],
              body := some o.params }, ?_, rfl, rfl, rfl⟩
    simp [graphAPIRequest_build, htok, hf, hm]

/-- Witness for C6: a GET and a POST at concrete parameters. -/
theorem graphAPIRequest_query_body_split_witness :
    (∃ req, graphAPIRequest_build "me"
        { method := "GET", params := [("fields", "id,name")],
          accessToken := some "EAtesttoken" } = .ok req ∧
      req.body = none ∧
      req.query = objAssign [("fields", "id,name")] "access_token" "EAtesttoken" ∧
      req.query.lookup "access_token" = some "EAtesttoken" ∧
      (∀ k v, k ≠ "access_token" →
        ((k, v) ∈ req.query ↔ (k, v) ∈ [("fields", "id,name")]))) ∧
    (∃ req, graphAPIRequest_build "me"
        { method := "POST", params := [("name", "x")],
          accessToken := some "EAtesttoken" } = .ok req ∧
      req.query = [("access_token", "EAtesttoken")] ∧
      req.body = some [("name", "x")] ∧
      req.headers = [("Content-Type", "application/x-www-form-urlencoded")]) :=
  ⟨(graphAPIRequest_query_body_split "me" _ "EAtesttoken" rfl (by decide)).1 rfl,
   (graphAPIRequest_query_body_split "me" _ "EAtesttoken" rfl (by decide)).2
     (by decide)⟩

/-- C7: the outbound body of every structured mutation call carries the
JSON-serialised variables under the `variables` field, and parsing that field
back reproduces exactly the variables value passed in. -/
theorem graphQLRequest_variables_roundtrip (docId friendlyName : String) (v : Json)
    (t : String) (ht : t ≠ "") (extraParams : List (String × String))
    (hx : ∀ p ∈ extraParams, p.1 ≠ "variables") :
    ∃ req body, graphQLRequest_build docId v friendlyName (some t) extraParams = .ok req ∧
      req.body = some body ∧
      body.lookup "variables" = some (Json.stringify v) ∧
      Json.parse (Json.stringify v) = some v := by
  have hf : jsStrFalsy (some t) = false := by simp [jsStrFalsy, ht]
  refine ⟨{ base := FB_GRAPHQL_API, path := "", query := [], method := "POST",
            headers := [("Content-Type", "application/x-www-form-urlencoded")],
            body := some (("access_token", t) :: extraParams ++
              [("doc_id", docId), ("variables", Json.stringify v),
               ("fb_api_req_friendly_name", friendlyName),
               ("fb_api_caller_class", "RelayModern")]) },
      ("access_token", t) :: extraParams ++
      [("doc_id", docId), ("variables", Json.stringify v),
       ("fb_api_req_friendly_name", friendlyName),
       ("fb_api_caller_class", "RelayModern")], ?_, rfl, ?_, parse_stringify v⟩
  · simp [graphQLRequest_build, hf]
  · have h1 : ¬ ("variables" : String) = "access_token" := by decide
    have hbe : (("variables" : String) == "access_token") = false :=
      beq_eq_false_iff_ne.mpr h1
    simp only [List.lookup, hbe]
    simp only [List.append_eq]
    rw [lookup_skip extraParams "variables" (fun p hp => hx p hp) _]
    have h2 : ¬ ("variables" : String) = "doc_id" := by decide
    have hbe2 : (("variables" : String) == "doc_id") = false := beq_eq_false_iff_ne.mpr h2
    simp [List.lookup, hbe2]

/-- Witness for C7 at a concrete nested variables object. -/
theorem graphQLRequest_variables_roundtrip_witness :
    ∃ req body, graphQLRequest_build "4787981637941330"
        (.obj [("input", .obj [("ad_account_id", .str "act_1"), ("n", .num 3)])])
        "useAdAccountMutation" (some "EAtesttoken") [("paymentAccountID", "77")]
        = .ok req ∧
      req.body = some body ∧
      body.lookup "variables" = some (Json.stringify
        (.obj [("input", .obj [("ad_account_id", .str "act_1"), ("n", .num 3)])])) ∧
      Json.parse (Json.stringify
          (.obj [("input", .obj [("ad_account_id", .str "act_1"), ("n", .num 3)])]))
        = some (.obj [("input", .obj [("ad_account_id", .str "act_1"), ("n", .num 3)])]) :=
  graphQLRequest_variables_roundtrip "4787981637941330" "useAdAccountMutation" _
    "EAtesttoken" (by decide) [("paymentAccountID", "77")]
    (by intro p hp; simp only [List.mem_singleton] at hp; rw [hp]; decide)

/-- C10: for a 2xx structured-mutation response whose decoded body carries a
nonempty `errors` array, graphQLRequest throws an error carrying exactly the
first entry's message — independent of every later entry, which is thereby
discarded — and when `errors` is absent or an empty array the decoded body is
returned unchanged; in both cases exactly one fetch happened. -/
theorem graphQLRequest_errors_first_message (docId : String) (v : Json)
    (fn t : String) (extra : List (String × String)) (net : Request → HttpResponse)
    (req : Request) (result : Json)
    (hbuild : graphQLRequest_build docId v fn (some t) extra = .ok req)
    (hok : respOk (net req) = true)
    (hparse : Json.parse (net req).body = some result) :
    (∀ e rest, Json.getField result "errors" = some (.arr (e :: rest)) →
        graphQLRequest docId v fn (some t) extra net
          = (.error (.thrown (errorFirstMessage e)), [req])) ∧
    ((Json.getField result "errors" = none ∨
        Json.getField result "errors" = some (.arr [])) →
      graphQLRequest docId v fn (some t) extra net = (.ok result, [req])) := by
  constructor
  · intro e rest herr
    simp [graphQLRequest, hbuild, graphQLRequest_handle, hok, hparse, herr]
  · rintro (herr | herr) <;>
      simp [graphQLRequest, hbuild, graphQLRequest_handle, hok, hparse, herr]

/-- Witness for C10 at a concrete two-entry errors array and at an absent
errors field. -/
theorem graphQLRequest_errors_first_message_witness :
    (graphQLRequest "1" (.obj []) "Fn" (some "EAtesttoken") []
        (fun _ => ⟨200, "OK",
          Json.stringify (.obj [("errors",
            .arr [.obj [("message", .str "first failure")],
                  .obj [("message", .str "second failure")]])])⟩)).1
      = .error (.thrown "first failure") ∧
    (graphQLRequest "1" (.obj []) "Fn" (some "EAtesttoken") []
        (fun _ => ⟨200, "OK", Json.stringify (.obj [("data", .num 1)])⟩)).1
      = .ok (.obj [("data", .num 1)]) := by
  obtain ⟨req, hreq⟩ : ∃ req, graphQLRequest_build "1" (.obj []) "Fn"
      (some "EAtesttoken") [] = .ok req := ⟨_, rfl⟩
  constructor
  · have h := (graphQLRequest_errors_first_message "1" (.obj []) "Fn" "EAtesttoken" []
        (fun _ => ⟨200, "OK",
          Json.stringify (.obj [("errors",
            .arr [.obj [("message", .str "first failure")],
                  .obj [("message", .str "second failure")]])])⟩) req _ hreq rfl
        (parse_stringify _)).1
        (.obj [("message", .str "first failure")])
        [.obj [("message", .str "second failure")]] (by rfl)
    rw [h]
    rfl
  · have h := (graphQLRequest_errors_first_message "1" (.obj []) "Fn" "EAtesttoken" []
        (fun _ => ⟨200, "OK", Json.stringify (.obj [("data", .num 1)])⟩) req _ hreq rfl
        (parse_stringify _)).2 (Or.inl (by rfl))
    rw [h]

/-- C5: for a 2xx batch response decoding to an array in which every entry
carries a parseable JSON string body, the handler succeeds and maps each
entry to its own ApiResult independently: position `i` of the output depends
only on entry `i`, an entry with nested code 200 becoming success with its
decoded body and any other entry failure with its decoded body. -/
theorem batch_entries_mapped_independently (r : HttpResponse) (es : List Json)
    (hok : respOk r = true) (hparse : Json.parse r.body = some (.arr es))
    (hall : ∀ e ∈ es, ∃ s j, Json.getField e "body" = some (.str s) ∧
      Json.parse s = some j) :
    ∃ rs, batchGraphAPIRequests_handle r = .ok rs ∧ rs.length = es.length ∧
      ∀ (i : Nat) (e : Json) (s : String) (j : Json), es[i]? = some e →
        Json.getField e "body" = some (.str s) → Json.parse s = some j →
        rs[i]? = some (if batchCodeIs200 e then ApiResult.success j
          else ApiResult.failure j) := by
  have hmap : ∀ e ∈ es, ∃ b, processBatchEntry e = .ok b := by
    intro e he
    obtain ⟨s, j, hs, hj⟩ := hall e he
    exact ⟨if batchCodeIs200 e then ApiResult.success j else ApiResult.failure j,
      by simp [processBatchEntry, hs, hj]⟩
  obtain ⟨rs, hrs, hlen, hpt⟩ := mapM_pointwise processBatchEntry es hmap
  refine ⟨rs, ?_, hlen, ?_⟩
  · simp only [batchGraphAPIRequests_handle, hok, hparse, if_true]
    exact hrs
  · intro i e s j hi hs hj
    obtain ⟨b, hb, hr⟩ := hpt i e hi
    have : processBatchEntry e
        = .ok (if batchCodeIs200 e then ApiResult.success j else ApiResult.failure j) := by
      simp [processBatchEntry, hs, hj]
    rw [this] at hb
    cases hb
    exact hr

/-- Witness for C5: the spec scenario of one nested-200 and one nested-400
entry, mapped to independent success and failure results. -/
theorem batch_entries_mapped_independently_witness :
    (∃ rs, batchGraphAPIRequests_handle c5Resp = .ok rs ∧ rs.length = 2 ∧
      ∀ (i : Nat) (e : Json) (s : String) (j : Json),
        [c5Entry1, c5Entry2][i]? = some e →
        Json.getField e "body" = some (.str s) → Json.parse s = some j →
        rs[i]? = some (if batchCodeIs200 e then ApiResult.success j
          else ApiResult.failure j)) ∧
    batchCodeIs200 c5Entry1 = true ∧ batchCodeIs200 c5Entry2 = false :=
  ⟨batch_entries_mapped_independently c5Resp [c5Entry1, c5Entry2] rfl
      (parse_stringify (.arr [c5Entry1, c5Entry2]))
      (by
        intro e he
        simp only [List.mem_cons, List.mem_singleton] at he
        rcases he with rfl | rfl | h
        · exact ⟨Json.stringify c5Body200, c5Body200, by rfl, parse_stringify c5Body200⟩
        · exact ⟨Json.stringify c5Body400, c5Body400, by rfl, parse_stringify c5Body400⟩
        · cases h),
   by rfl, by rfl⟩

/-- C2 counterexample: a page whose two blocks carry distinct candidates; the
claim says the last block's candidate wins, but the extractor returns the
first block's. -/
theorem getAccessToken_last_match_counterexample :
    tokenRegexExec ((c2Env.scripts.getD 0 "").data) = some c2TokenA ∧
    tokenRegexExec ((c2Env.scripts.getD 1 "").data) = some c2TokenB ∧
    (getAccessToken c2Env).token = c2TokenA ∧ c2TokenA ≠ c2TokenB :=
  ⟨by rfl, by rfl, by rfl, by decide⟩

/-- Witness for C2 (amended): the page `c2Env`, whose first block matches
with no earlier block, yields the first block's candidate. -/
theorem getAccessToken_token_of_first_match_witness :
    (getAccessToken c2Env).token = c2TokenA :=
  getAccessToken_token_of_first_match c2Env []
    ["var b = \"EAYYYYYYYYYYYYYYYYYYYY\";"] "var a = \"EAXXXXXXXXXXXXXXXXXXXX\";"
    c2TokenA rfl (fun s hs => absurd hs (List.not_mem_nil s)) (by rfl)

/-- C8 counterexample: a page with exactly one substring of the claimed
token shape — a quote, then `EA`, then twenty alphanumerics — but no closing
quote after it; the claim says the extractor returns that substring with the
leading quote stripped, but the extractor's regex requires a closing quote
and returns the empty string. -/
theorem getAccessToken_unterminated_token_counterexample :
    c8Script.data
      = "q = ".data ++ ('"' :: 'E' :: 'A' :: List.replicate 20 'X') ++ ";".data ∧
    (List.replicate 20 'X').all isTokenChar = true ∧
    (getAccessToken c8Env).token = "" :=
  ⟨by decide, by decide, by rfl⟩

/-- C8 (amended): when the page's blocks contain exactly one match of the
token regex — a quote, `EA`, at least twenty alphanumerics and a closing
quote — the extractor returns exactly the quoted candidate with both quotes
excluded (the capture group, i.e. the match with its leading quote stripped
and the terminating quote not captured), and that candidate is
bearer-token-shaped (validateToken accepts it). -/
theorem getAccessToken_single_quoted_token (env : PageEnv) (pre post : List String)
    (b t : String) (hs : env.scripts = pre ++ b :: post)
    (hpre : ∀ s ∈ pre, tokenRegexExec s.data = none)
    (hpost : ∀ s ∈ post, tokenRegexExec s.data = none)
    (hb : tokenRegexExec b.data = some t) :
    (getAccessToken env).token = t ∧ validateToken t = true := by
  constructor
  · have hne : t ≠ "" := tokenRegexExec_ne_empty hb
    unfold getAccessToken
    simp only [hs]
    obtain ⟨a2, ha⟩ := scan_fst_through_pre (!jsStrFalsy (getURLParameter env "act"))
      pre (b :: post) "" hpre
    rw [ha]
    simp only [scanScripts, hb, if_pos rfl]
    exact scan_fst_stable _ post t _ hne
  · exact tokenRegexExec_valid hb

/-- Witness for C8 (amended): a one-block page with a single properly quoted
token. -/
theorem getAccessToken_single_quoted_token_witness :
    (getAccessToken ⟨["var a = \"EAXXXXXXXXXXXXXXXXXXXX\";"], "", []⟩).token = c2TokenA ∧
    validateToken c2TokenA = true :=
  getAccessToken_single_quoted_token _ [] [] "var a = \"EAXXXXXXXXXXXXXXXXXXXX\";"
    c2TokenA rfl (fun s hs => absurd hs (List.not_mem_nil s))
    (fun s hs => absurd hs (List.not_mem_nil s)) (by rfl)

/-- C9: the extractor is a total function of the page environment — it never
throws — and every credential field it could not find comes back as the empty
string: no token-regex match in any block means an empty token, no account-id
match and no `act` URL parameter means an empty account id, and the auth flag
is always just the presence of the session cookie. -/
theorem getAccessToken_total_defaults (env : PageEnv)
    (htok : ∀ s ∈ env.scripts, tokenRegexExec s.data = none)
    (hacc : ∀ s ∈ env.scripts, accountIdRegexExec s.data = none)
    (hact : env.urlParams.lookup "act" = none) :
    (getAccessToken env).token = "" ∧ (getAccessToken env).accountId = "" ∧
    (getAccessToken env).isPageAuth = (getCookie env.cookieStr COOKIES_USER_ID).isSome := by
  unfold getAccessToken
  simp only [getURLParameter, hact]
  have hscan := scan_all_none (!jsStrFalsy none) env.scripts htok hacc
  exact ⟨by simp [hscan], by simp [hscan], rfl⟩

/-- Witness for C9: a page with one matchless script block, no cookies and no
URL parameters. -/
theorem getAccessToken_total_defaults_witness :
    (getAccessToken ⟨["hello"], "", []⟩).token = "" ∧
    (getAccessToken ⟨["hello"], "", []⟩).accountId = "" ∧
    (getAccessToken ⟨["hello"], "", []⟩).isPageAuth
      = (getCookie "" COOKIES_USER_ID).isSome :=
  getAccessToken_total_defaults ⟨["hello"], "", []⟩
    (by intro s hs; simp only [List.mem_singleton] at hs; rw [hs]; rfl)
    (by intro s hs; simp only [List.mem_singleton] at hs; rw [hs]; rfl)
    rfl
